import Mathlib

/-!
Shallow embedding of the keychain/car authentication protocol
(`src/main.rs`): message framing, the 8-byte big-endian freshness token,
digest signing/verification and the broadcast simulation loop.

Byte strings are `List Nat` (each entry a byte value).  The system clock is
an explicit `nanos : Nat` parameter (nanoseconds since the epoch); the
cryptographic primitives (SHA-256, the RSA private/public transforms of a
2048-bit key with PKCS1 padding) are abstract function parameters, with the
properties a genuine implementation has (digest length 32, private-encrypt
block length 256, public-decrypt inverting private-encrypt) stated as
explicit predicates.
-/

namespace KeychainProto

/-- The constant `TIME_LENGTH`: byte length of the freshness token. -/
def TIME_LENGTH : Nat := 8

/-- Big-endian encoding of `n` on `w` bytes (most significant byte first). -/
def beBytes : Nat → Nat → List Nat
  | 0, _ => []
  | w + 1, n => beBytes w (n / 256) ++ [n % 256]

/-- Decoding `u64::from_be_bytes`: big-endian decoding of a byte string. -/
def fromBeBytes (l : List Nat) : Nat := l.foldl (fun a b => a * 256 + b) 0

/-- The source's `now()`: the clock reading in nanoseconds since the epoch, truncated to
`u64` (`as_nanos() as u64`) and serialized as 8 big-endian bytes.  The clock
value itself is an external input, passed in as `nanos`. -/
def now (nanos : Nat) : List Nat := beBytes TIME_LENGTH (nanos % 2 ^ 64)

/-- The source's `elapsed(since, to)`: `u64::from_be_bytes(to).checked_sub(u64::from_be_bytes(since))`,
the elapsed duration in nanoseconds, or `none` on underflow. -/
def elapsed (since' to' : List Nat) : Option Nat :=
  if fromBeBytes since' ≤ fromBeBytes to' then
    some (fromBeBytes to' - fromBeBytes since')
  else
    none

/-- The two message kinds. -/
inductive MessageKind where
  | CommandOpen
  | Success
deriving DecidableEq

/-- The numeric discriminants: `CommandOpen = 1`, `Success = 1 << 2`. -/
def MessageKind.toU8 : MessageKind → Nat
  | .CommandOpen => 1
  | .Success => 1 <<< 2

/-- The impl `TryFrom<u8> for MessageKind`: decode a kind tag byte. -/
def MessageKind.tryFrom (value : Nat) : Option MessageKind :=
  if value = MessageKind.CommandOpen.toU8 then some .CommandOpen
  else if value = MessageKind.Success.toU8 then some .Success
  else none

/-- An RSA public key (`Rsa<Public>`), abstracted by its `public_decrypt`
operation with PKCS1 padding: recover the signed block from a signature
block, or fail (bad padding). -/
structure RsaPublicKey where
  public_decrypt : List Nat → Option (List Nat)

/-- An RSA private key (`Rsa<Private>`), abstracted by its `private_encrypt`
operation with PKCS1 padding: produce the signature block over the given
data. -/
structure RsaPrivateKey where
  private_encrypt : List Nat → List Nat

/-- The verifier role: holds the public key. -/
structure Car where
  rsa : RsaPublicKey

/-- The prover role: holds the private key. -/
structure Keychain where
  rsa : RsaPrivateKey

/-- The result of writing `out` into a fresh `vec![0; 256]` buffer: the
written bytes followed by the untouched zero tail. -/
def buffer256 (out : List Nat) : List Nat :=
  out.take 256 ++ List.replicate (256 - out.length) 0

/-- The token-extraction loop `for i in 0..TIME_LENGTH { time[i] = message[i] }`:
the first `TIME_LENGTH` bytes of `msg`. -/
def tokenBytes (msg : List Nat) : List Nat :=
  (List.range TIME_LENGTH).map (fun i => msg.getD i 0)

/-- The freshness token carried by a framed message: the 8 bytes following
the kind tag. -/
def tokenOf (message : List Nat) : List Nat := tokenBytes (message.drop 1)

/-- The verification comparison loop
`for (k, &v) in hash2.iter().enumerate() { if decrypted_hash[k] != v { return None } }`:
compare `digest` against `buf` starting at offset `k`. -/
def cmpLoop : List Nat → Nat → List Nat → Bool
  | [], _, _ => true
  | v :: rest, k, buf => if buf.getD k 0 ≠ v then false else cmpLoop rest (k + 1) buf

/-- The source's `Keychain::get_initiation_message`: tag byte, then the 8 freshness-token
bytes, then the signature block over the SHA-256 digest of those 8 bytes. -/
def Keychain.get_initiation_message (sha256 : List Nat → List Nat) (kc : Keychain)
    (nanos : Nat) : List Nat :=
  let message := [MessageKind.CommandOpen.toU8]
  let time := now nanos
  let hash := sha256 time
  let sign := buffer256 (kc.rsa.private_encrypt hash)
  message ++ (time ++ sign)

/-- The source's `impl MessageProcessor for Car`: validate a `CommandOpen` message
(framing, freshness, signature) and answer `Success`, or reject silently. -/
def Car.process (sha256 : List Nat → List Nat) (car : Car) (nanos : Nat)
    (message : List Nat) : Option (List Nat) :=
  if message.length > TIME_LENGTH + 1 then
    match MessageKind.tryFrom (message.getD 0 0) with
    | some MessageKind.CommandOpen =>
      let msg := message.drop 1
      let time := tokenBytes msg
      match elapsed time (now nanos) with
      | some duration =>
        if duration / 1000000000 < 1 then
          match car.rsa.public_decrypt (msg.drop TIME_LENGTH) with
          | some recovered =>
            let decrypted_hash := buffer256 recovered
            let hash2 := sha256 time
            if cmpLoop hash2 0 decrypted_hash then some [MessageKind.Success.toU8]
            else none
          | none => none
        else none
      | none => none
    | _ => none
  else none

/-- The source's `impl MessageProcessor for Keychain`: log a `Success`, never respond. -/
def Keychain.process (_kc : Keychain) (message : List Nat) : Option (List Nat) :=
  if message.length < 1 then none
  else
    match MessageKind.tryFrom (message.getD 0 0) with
    | some MessageKind.Success => none
    | _ => none

/-- A provisioned key pair is valid when, on any block that fits in a PKCS1
message for a 2048-bit key (at most 245 bytes), the private transform yields
a full 256-byte signature block and the public transform inverts it. -/
def ValidKeyPair (car : Car) (kc : Keychain) : Prop :=
  ∀ m : List Nat, m.length ≤ 245 →
    (kc.rsa.private_encrypt m).length = 256 ∧
    car.rsa.public_decrypt (kc.rsa.private_encrypt m) = some m

/-- The one property of SHA-256 the control flow depends on: every digest is
32 bytes long. -/
def Sha256Shape (sha256 : List Nat → List Nat) : Prop :=
  ∀ t : List Nat, (sha256 t).length = 32

/-- One iteration of the `main` drain loop: `ether.pop_back()` takes the
oldest pending message (the head here, since `push_front` appends at the
tail in this representation), every device processes it in order (`car`
then `keychain`), and each `Some` response is `push_front`-ed. -/
def stepEther (sha256 : List Nat → List Nat) (car : Car) (kc : Keychain)
    (nanos : Nat) : List (List Nat) → List (List Nat)
  | [] => []
  | x :: rest =>
    let rest1 := match Car.process sha256 car nanos x with
      | some response => rest ++ [response]
      | none => rest
    match Keychain.process kc x with
    | some response => rest1 ++ [response]
    | none => rest1

/-- The `while ether.len() > 0` loop of `main`, run for at most `fuel`
iterations; `clock i` is the clock reading during iteration `i`.  The loop
terminates precisely when this reaches `[]` within some finite fuel. -/
def runEther (sha256 : List Nat → List Nat) (car : Car) (kc : Keychain)
    (clock : Nat → Nat) : Nat → Nat → List (List Nat) → List (List Nat)
  | 0, _, ether => ether
  | fuel + 1, i, ether =>
    match ether with
    | [] => []
    | _ => runEther sha256 car kc clock fuel (i + 1) (stepEther sha256 car kc (clock i) ether)

/-! ### Panic-checked variants of the two `process` implementations

Every indexing or slicing operation of the source is replaced by a guarded
access; the outer `Option` is `none` exactly when some access would be out
of bounds (a Rust panic).  Totality of the originals is the statement that
these checked variants never return the outer `none` and agree with the
unchecked embedding. -/

/-- Slicing `message[i..]`: defined only when `i ≤ message.len()`. -/
def checkedSlice (l : List Nat) (i : Nat) : Option (List Nat) :=
  if i ≤ l.length then some (l.drop i) else none

/-- The verification comparison loop with a guarded `decrypted_hash[k]`
access; `none` means the access panicked. -/
def cmpLoopChecked : List Nat → Nat → List Nat → Option Bool
  | [], _, _ => some true
  | v :: rest, k, buf =>
    match buf.get? k with
    | none => none
    | some b => if b ≠ v then some false else cmpLoopChecked rest (k + 1) buf

/-- The source's `Car::process` with every index and slice access guarded. -/
def Car.processChecked (sha256 : List Nat → List Nat) (car : Car) (nanos : Nat)
    (message : List Nat) : Option (Option (List Nat)) :=
  if message.length > TIME_LENGTH + 1 then
    match message.get? 0 with
    | none => none
    | some b0 =>
      match MessageKind.tryFrom b0 with
      | some MessageKind.CommandOpen =>
        match checkedSlice message 1 with
        | none => none
        | some msg =>
          match (List.range TIME_LENGTH).mapM (fun i => msg.get? i) with
          | none => none
          | some time =>
            match elapsed time (now nanos) with
            | some duration =>
              if duration / 1000000000 < 1 then
                match checkedSlice msg TIME_LENGTH with
                | none => none
                | some tail =>
                  match car.rsa.public_decrypt tail with
                  | some recovered =>
                    match cmpLoopChecked (sha256 time) 0 (buffer256 recovered) with
                    | none => none
                    | some true => some (some [MessageKind.Success.toU8])
                    | some false => some none
                  | none => some none
              else some none
            | none => some none
      | _ => some none
  else some none

/-- The source's `Keychain::process` with its one index access guarded. -/
def Keychain.processChecked (_kc : Keychain) (message : List Nat) :
    Option (Option (List Nat)) :=
  if message.length < 1 then some none
  else
    match message.get? 0 with
    | none => none
    | some b0 =>
      match MessageKind.tryFrom b0 with
      | some MessageKind.Success => some none
      | _ => some none

/-! ### Basic facts about serialization and the buffers -/

theorem beBytes_length (w n : Nat) : (beBytes w n).length = w := by
  induction w generalizing n with
  | zero => rfl
  | succ w ih => simp [beBytes, ih]

theorem fromBeBytes_concat (l : List Nat) (b : Nat) :
    fromBeBytes (l ++ [b]) = fromBeBytes l * 256 + b := by
  simp [fromBeBytes, List.foldl_append]

theorem fromBeBytes_beBytes (w n : Nat) : fromBeBytes (beBytes w n) = n % 256 ^ w := by
  induction w generalizing n with
  | zero => simp [beBytes, fromBeBytes, Nat.mod_one]
  | succ w ih =>
    rw [beBytes, fromBeBytes_concat, ih, pow_succ, Nat.mul_comm (256 ^ w) 256,
      Nat.mod_mul]
    ring

theorem now_length (nanos : Nat) : (now nanos).length = TIME_LENGTH :=
  beBytes_length _ _

theorem fromBeBytes_now (nanos : Nat) : fromBeBytes (now nanos) = nanos % 2 ^ 64 := by
  have h : (256 : Nat) ^ TIME_LENGTH = 2 ^ 64 := by decide
  rw [now, fromBeBytes_beBytes, h]
  exact Nat.mod_mod_of_dvd nanos dvd_rfl

theorem tokenBytes_take (msg : List Nat) (h : TIME_LENGTH ≤ msg.length) :
    tokenBytes msg = msg.take TIME_LENGTH := by
  apply List.ext_getElem
  · simp [tokenBytes]
    omega
  · intro i h1 h2
    simp only [tokenBytes, List.getElem_map, List.getElem_range, List.getElem_take]
    have hi : i < msg.length := by
      simp [tokenBytes] at h1
      omega
    rw [List.getD_eq_getElem msg 0 hi]

theorem tokenBytes_prefix (t s : List Nat) (h : t.length = TIME_LENGTH) :
    tokenBytes (t ++ s) = t := by
  rw [tokenBytes_take _ (by simp [h])]
  rw [← h, List.take_left]

theorem drop_token (t s : List Nat) (h : t.length = TIME_LENGTH) :
    (t ++ s).drop TIME_LENGTH = s := by
  rw [← h, List.drop_left]

theorem buffer256_length (out : List Nat) : (buffer256 out).length = 256 := by
  simp [buffer256]
  omega

theorem buffer256_of_length_eq (out : List Nat) (h : out.length = 256) :
    buffer256 out = out := by
  simp [buffer256, h, List.take_of_length_le (le_of_eq h)]

theorem buffer256_of_length_le (out : List Nat) (h : out.length ≤ 256) :
    buffer256 out = out ++ List.replicate (256 - out.length) 0 := by
  simp [buffer256, List.take_of_length_le h]

/-- The comparison loop succeeds exactly when the buffer agrees with the
digest on every index of the digest (shifted by the start offset). -/
theorem cmpLoop_eq_true_iff (digest : List Nat) (k : Nat) (buf : List Nat) :
    cmpLoop digest k buf = true ↔
      ∀ j < digest.length, buf.getD (k + j) 0 = digest.getD j 0 := by
  induction digest generalizing k with
  | nil => simp [cmpLoop]
  | cons v rest ih =>
    by_cases h : buf.getD k 0 = v
    · simp only [cmpLoop, h, ne_eq, not_true_eq_false, if_false]
      rw [ih (k + 1)]
      constructor
      · intro hrest j hj
        match j with
        | 0 => simpa using h
        | j + 1 =>
          have h2 := hrest j (by simpa using hj)
          simpa [Nat.add_assoc, Nat.add_comm 1 j] using h2
      · intro hall j hj
        have h2 := hall (j + 1) (by simpa using hj)
        simpa [Nat.add_assoc, Nat.add_comm 1 j] using h2
    · simp only [cmpLoop]
      rw [if_pos h]
      simp only [Bool.false_eq_true, false_iff]
      intro hall
      exact h (by simpa using hall 0 (by simp))

theorem get?_eq_some_getD (l : List Nat) (n : Nat) (h : n < l.length) :
    l.get? n = some (l.getD n 0) := by
  rw [List.getD_eq_getElem l 0 h, List.get?_eq_getElem?, List.getElem?_eq_getElem h]

/-! ### A concrete executable key pair and hash, used to witness the
hypotheses of the theorems below on explicit inputs -/

/-- A toy stand-in for SHA-256 with the same output shape: a 32-byte digest
whose first byte is the byte-sum of the input. -/
def testSha (t : List Nat) : List Nat :=
  (t.foldl (fun a b => (a + b) % 256) 0) :: List.replicate 31 0

/-- A toy public key: the signature block stores its plaintext length in its
first byte, the plaintext right after. -/
def testCar : Car := ⟨⟨fun s =>
  match s with
  | [] => none
  | len :: rest => some (rest.take len)⟩⟩

/-- The matching toy private key. -/
def testKeychain : Keychain := ⟨⟨fun m =>
  min m.length 245 :: (m.take 245 ++ List.replicate (255 - min m.length 245) 0)⟩⟩

theorem testSha_shape : Sha256Shape testSha := by
  intro t
  simp [testSha]

theorem testKeyPair_valid : ValidKeyPair testCar testKeychain := by
  intro m hm
  have hmin : min m.length 245 = m.length := Nat.min_eq_left hm
  have htake : m.take 245 = m := List.take_of_length_le hm
  constructor
  · simp [testKeychain, hmin, htake]
    omega
  · simp only [testKeychain, testCar, hmin, htake]
    rw [List.take_left]

/-! ### Behaviour of the two `process` implementations -/

theorem keychain_process_eq_none (kc : Keychain) (message : List Nat) :
    Keychain.process kc message = none := by
  unfold Keychain.process
  split
  · rfl
  · split <;> rfl

theorem car_process_none_or_success (sha256 : List Nat → List Nat) (car : Car)
    (nanos : Nat) (message : List Nat) :
    Car.process sha256 car nanos message = none ∨
      Car.process sha256 car nanos message = some [MessageKind.Success.toU8] := by
  simp only [Car.process]
  repeat' split
  all_goals simp

theorem car_process_short (sha256 : List Nat → List Nat) (car : Car)
    (nanos : Nat) (message : List Nat) (h : ¬ message.length > TIME_LENGTH + 1) :
    Car.process sha256 car nanos message = none := by
  unfold Car.process
  rw [if_neg h]

theorem get_initiation_message_eq (sha256 : List Nat → List Nat) (kc : Keychain)
    (nanos : Nat) :
    Keychain.get_initiation_message sha256 kc nanos =
      MessageKind.CommandOpen.toU8 ::
        (now nanos ++ buffer256 (kc.rsa.private_encrypt (sha256 (now nanos)))) := by
  simp [Keychain.get_initiation_message]

theorem tryFrom_CommandOpen : MessageKind.tryFrom MessageKind.CommandOpen.toU8 =
    some MessageKind.CommandOpen := rfl

theorem elapsed_now_now (n1 n2 : Nat) (hord : n1 ≤ n2) (hbound : n2 < 2 ^ 64) :
    elapsed (now n1) (now n2) = some (n2 - n1) := by
  unfold elapsed
  rw [fromBeBytes_now, fromBeBytes_now, Nat.mod_eq_of_lt (lt_of_le_of_lt hord hbound),
    Nat.mod_eq_of_lt hbound, if_pos hord]

/-- C1: for every valid key pair, an initiation message produced at clock
reading `n1` and processed by the car at clock reading `n2`, with the clock
non-decreasing and still inside the 1-second freshness window, yields the
`Success` answer. -/
theorem car_accepts_fresh_initiation
    (sha256 : List Nat → List Nat) (car : Car) (kc : Keychain)
    (hsha : Sha256Shape sha256) (hkey : ValidKeyPair car kc)
    (n1 n2 : Nat) (hord : n1 ≤ n2) (hfresh : n2 - n1 < 1000000000)
    (hbound : n2 < 2 ^ 64) :
    Car.process sha256 car n2 (Keychain.get_initiation_message sha256 kc n1) =
      some [MessageKind.Success.toU8] := by
  have h32 : (sha256 (now n1)).length = 32 := hsha _
  obtain ⟨hElen, hEdec⟩ := hkey (sha256 (now n1)) (by rw [h32]; norm_num)
  have hbuf : buffer256 (kc.rsa.private_encrypt (sha256 (now n1))) =
      kc.rsa.private_encrypt (sha256 (now n1)) := buffer256_of_length_eq _ hElen
  rw [get_initiation_message_eq sha256 kc n1, hbuf]
  have hcmp : cmpLoop (sha256 (now n1)) 0 (buffer256 (sha256 (now n1))) = true := by
    rw [cmpLoop_eq_true_iff]
    intro j hj
    rw [buffer256_of_length_le _ (by rw [h32]; norm_num), Nat.zero_add,
      List.getD_append _ _ _ _ hj]
  have hbig : (MessageKind.CommandOpen.toU8 ::
      (now n1 ++ kc.rsa.private_encrypt (sha256 (now n1)))).length > TIME_LENGTH + 1 := by
    simp [now_length, hElen, TIME_LENGTH]
  unfold Car.process
  rw [if_pos hbig]
  simp only [List.getD_cons_zero, tryFrom_CommandOpen, List.drop_succ_cons,
    List.drop_zero, tokenBytes_prefix _ _ (now_length n1), drop_token _ _ (now_length n1),
    elapsed_now_now n1 n2 hord hbound, Nat.div_eq_of_lt hfresh, hEdec, hcmp]
  simp

/-- Witness for C1: the concrete key pair and hash accept a same-instant
initiation message. -/
theorem car_accepts_fresh_initiation_witness :
    Car.process testSha testCar 0 (Keychain.get_initiation_message testSha testKeychain 0) =
      some [MessageKind.Success.toU8] :=
  car_accepts_fresh_initiation testSha testCar testKeychain testSha_shape
    testKeyPair_valid 0 0 (Nat.le_refl 0) (by norm_num) (by norm_num)

theorem div_lt_one_iff (d : Nat) : d / 1000000000 < 1 ↔ d < 1000000000 := by
  rw [Nat.div_lt_iff_lt_mul (by norm_num)]

/-- C2: the car answers a `CommandOpen` message only when its token is
fresh — `elapsed(token, now())` is defined and below one second — and
rejects silently both a token from the future (`elapsed` undefined) and a
token one second old or older, whatever the signature. -/
theorem car_freshness_policy (sha256 : List Nat → List Nat) (car : Car)
    (nanos : Nat) (message : List Nat) :
    (Car.process sha256 car nanos message ≠ none →
      ∃ d, elapsed (tokenOf message) (now nanos) = some d ∧ d < 1000000000) ∧
    (∀ d, elapsed (tokenOf message) (now nanos) = some d → 1000000000 ≤ d →
      Car.process sha256 car nanos message = none) ∧
    (elapsed (tokenOf message) (now nanos) = none →
      Car.process sha256 car nanos message = none) := by
  simp only [tokenOf]
  refine ⟨?_, ?_, ?_⟩
  · intro hne
    unfold Car.process at hne
    split at hne
    · split at hne
      · dsimp only at hne
        split at hne
        · rename_i duration heq
          split at hne
          · rename_i hlt
            exact ⟨duration, heq, (div_lt_one_iff duration).mp hlt⟩
          · exact absurd rfl hne
        · exact absurd rfl hne
      · exact absurd rfl hne
    · exact absurd rfl hne
  · intro d hd hge
    unfold Car.process
    split
    · split
      · dsimp only
        rw [hd]
        dsimp only
        rw [if_neg (by rw [div_lt_one_iff]; omega)]
      · rfl
    · rfl
  · intro hd
    unfold Car.process
    split
    · split
      · dsimp only
        rw [hd]
      · rfl
    · rfl

set_option maxRecDepth 1000000 in
/-- Witness for C2: a token minted at clock 0 processed two seconds later
is rejected even though the message is a genuinely signed initiation. -/
theorem car_freshness_policy_witness :
    Car.process testSha testCar (2 * 1000000000)
      (Keychain.get_initiation_message testSha testKeychain 0) = none :=
  (car_freshness_policy testSha testCar (2 * 1000000000)
      (Keychain.get_initiation_message testSha testKeychain 0)).2.1
    (2 * 1000000000) (by decide) (by norm_num)

/-- C3: `elapsed` on big-endian tokens is exactly checked subtraction of
the decoded 64-bit values, in nanoseconds: `some (to - since)` when the
decoded `to` is at least the decoded `since`, `none` otherwise; in
particular `elapsed t t = some 0` and `elapsed t1 t2 = none` whenever `t2`
decodes strictly below `t1`. -/
theorem elapsed_spec (t1 t2 : List Nat) :
    elapsed t1 t2 = (if fromBeBytes t1 ≤ fromBeBytes t2 then
        some (fromBeBytes t2 - fromBeBytes t1) else none) ∧
    elapsed t1 t1 = some 0 ∧
    (fromBeBytes t2 < fromBeBytes t1 → elapsed t1 t2 = none) := by
  refine ⟨rfl, ?_, ?_⟩
  · simp [elapsed]
  · intro h
    rw [elapsed, if_neg (not_le.mpr h)]

/-- Witness for C3: a token one tick in the future is rejected by
`elapsed`. -/
theorem elapsed_spec_witness :
    elapsed [0, 0, 0, 0, 0, 0, 0, 1] [0, 0, 0, 0, 0, 0, 0, 0] = none :=
  (elapsed_spec [0, 0, 0, 0, 0, 0, 0, 1] [0, 0, 0, 0, 0, 0, 0, 0]).2.2 (by decide)

/-- A forged `CommandOpen` whose signature block opens to a 33-byte block
whose first 32 bytes coincide with the digest of its token. -/
def wrongSizeMessage : List Nat :=
  MessageKind.CommandOpen.toU8 :: (now 0 ++ (33 :: List.replicate 255 0))

set_option maxRecDepth 1000000 in
/-- Counterexample to C4 as stated: the recovered block has the wrong size
(33 bytes, not the 32-byte digest), yet `Car::process` accepts the message,
because the code never checks the recovered length — it only compares the
first 32 bytes of the zero-initialized 256-byte buffer. -/
theorem car_accepts_wrong_size_block :
    testCar.rsa.public_decrypt ((wrongSizeMessage.drop 1).drop TIME_LENGTH) =
        some (List.replicate 33 0) ∧
    (List.replicate 33 0).length ≠ (testSha (tokenOf wrongSizeMessage)).length ∧
    Car.process testSha testCar 0 wrongSizeMessage =
      some [MessageKind.Success.toU8] :=
  ⟨by decide, by decide, by decide⟩

/-- C4 amended: a failed public-key decryption, or any mismatch between the
recomputed digest and the corresponding prefix of the zero-initialized
256-byte decryption buffer, makes `Car::process` return `none`, with the
same silent `none` in both cases; the length of the recovered block itself
is never checked. -/
theorem car_signature_failure_silent (sha256 : List Nat → List Nat) (car : Car)
    (nanos : Nat) (message : List Nat) :
    (car.rsa.public_decrypt ((message.drop 1).drop TIME_LENGTH) = none →
      Car.process sha256 car nanos message = none) ∧
    (∀ recovered,
      car.rsa.public_decrypt ((message.drop 1).drop TIME_LENGTH) = some recovered →
      (∃ k < (sha256 (tokenOf message)).length,
        (buffer256 recovered).getD k 0 ≠ (sha256 (tokenOf message)).getD k 0) →
      Car.process sha256 car nanos message = none) := by
  simp only [tokenOf]
  constructor
  · intro hdec
    unfold Car.process
    split
    · split
      · dsimp only
        split
        · rw [hdec]
          split <;> rfl
        · rfl
      · rfl
    · rfl
  · intro recovered hdec hmis
    unfold Car.process
    split
    · split
      · dsimp only
        split
        · rw [hdec]
          dsimp only
          split
          · rw [if_neg]
            intro hc
            obtain ⟨k, hk, hne⟩ := hmis
            have hc2 := (cmpLoop_eq_true_iff _ 0 _).mp hc k hk
            rw [Nat.zero_add] at hc2
            exact hne hc2
          · rfl
        · rfl
      · rfl
    · rfl

/-- A `CommandOpen` whose signature block opens to the block `[5]`, which
mismatches the digest of its token in byte 0. -/
def mismatchMessage : List Nat :=
  MessageKind.CommandOpen.toU8 :: (now 0 ++ (1 :: 5 :: List.replicate 254 0))

set_option maxRecDepth 1000000 in
/-- Witness for C4 (amended): the mismatching forgery is silently
rejected. -/
theorem car_signature_failure_silent_witness :
    Car.process testSha testCar 0 mismatchMessage = none :=
  (car_signature_failure_silent testSha testCar 0 mismatchMessage).2 [5]
    (by decide) ⟨0, by decide, by decide⟩

/-- C5: the signed digest covers the 8 freshness-token bytes alone.  The
initiation message signs exactly `sha256(now())`, and the car's acceptance
depends on the hash function only through its value on the 8 extracted
token bytes — the kind byte and every other field are outside the hashed
data on both sides. -/
theorem signature_covers_token_only (sha256 sha256' : List Nat → List Nat)
    (car car' : Car) (kc : Keychain) (nanos : Nat) (message : List Nat)
    (hdec : car.rsa.public_decrypt = car'.rsa.public_decrypt)
    (hsha : sha256 (tokenOf message) = sha256' (tokenOf message)) :
    Keychain.get_initiation_message sha256 kc nanos =
      MessageKind.CommandOpen.toU8 ::
        (now nanos ++ buffer256 (kc.rsa.private_encrypt (sha256 (now nanos)))) ∧
    Car.process sha256 car nanos message = Car.process sha256' car' nanos message := by
  refine ⟨get_initiation_message_eq _ _ _, ?_⟩
  simp only [tokenOf] at hsha
  unfold Car.process
  dsimp only
  rw [hdec, hsha]

/-- A second toy hash with the 32-byte output shape, agreeing with
`testSha` on the all-zero token but not elsewhere. -/
def testSha2 (t : List Nat) : List Nat :=
  (t.foldl (fun a b => (a + 2 * b) % 256) 0) :: List.replicate 31 0

set_option maxRecDepth 1000000 in
/-- Witness for C5: two different hash functions agreeing on the extracted
token give the same processing result. -/
theorem signature_covers_token_only_witness :
    Keychain.get_initiation_message testSha testKeychain 0 =
      MessageKind.CommandOpen.toU8 ::
        (now 0 ++ buffer256 (testKeychain.rsa.private_encrypt (testSha (now 0)))) ∧
    Car.process testSha testCar 0 [1, 0, 0, 0, 0, 0, 0, 0, 0, 9] =
      Car.process testSha2 testCar 0 [1, 0, 0, 0, 0, 0, 0, 0, 0, 9] :=
  signature_covers_token_only testSha testSha2 testCar testCar testKeychain 0
    [1, 0, 0, 0, 0, 0, 0, 0, 0, 9] rfl (by decide)

/-- C6: on any input byte vector the car answers either nothing or exactly
the one-byte `Success` message, and the keychain never answers — every
rejection is silent, with no error output. -/
theorem process_output_shape (sha256 : List Nat → List Nat) (car : Car)
    (kc : Keychain) (nanos : Nat) (message : List Nat) :
    (Car.process sha256 car nanos message = none ∨
      Car.process sha256 car nanos message = some [MessageKind.Success.toU8]) ∧
    Keychain.process kc message = none :=
  ⟨car_process_none_or_success sha256 car nanos message,
   keychain_process_eq_none kc message⟩

/-- C7: a non-empty message whose first byte maps to no `MessageKind`
(anything other than 1 and 4) is rejected by the decoder and by both
roles. -/
theorem unknown_kind_rejected (sha256 : List Nat → List Nat) (car : Car)
    (kc : Keychain) (nanos : Nat) (message : List Nat) (hne : message ≠ [])
    (h1 : message.getD 0 0 ≠ 1) (h4 : message.getD 0 0 ≠ 4) :
    MessageKind.tryFrom (message.getD 0 0) = none ∧
    Car.process sha256 car nanos message = none ∧
    Keychain.process kc message = none := by
  have htf : MessageKind.tryFrom (message.getD 0 0) = none := by
    unfold MessageKind.tryFrom MessageKind.toU8
    rw [if_neg h1, if_neg (by simpa using h4)]
  refine ⟨htf, ?_, keychain_process_eq_none kc message⟩
  unfold Car.process
  split
  · rw [htf]
  · rfl

set_option maxRecDepth 1000000 in
/-- Witness for C7: the byte `0x02` is rejected everywhere. -/
theorem unknown_kind_rejected_witness :
    MessageKind.tryFrom (([2] : List Nat).getD 0 0) = none ∧
    Car.process testSha testCar 0 [2] = none ∧
    Keychain.process testKeychain [2] = none :=
  unknown_kind_rejected testSha testCar testKeychain 0 [2] (by decide)
    (by decide) (by decide)

/-- C8: the wire format.  The kind tags are `CommandOpen = 1` and
`Success = 4`; the initiation message is the tag byte `1`, then the 8-byte
big-endian nanosecond timestamp of `now()`, then the 256-byte signature
block of the 2048-bit key; the `Success` answer is the single tag byte. -/
theorem wire_format (sha256 : List Nat → List Nat) (car : Car) (kc : Keychain)
    (nanos : Nat) (message : List Nat) :
    MessageKind.CommandOpen.toU8 = 1 ∧
    MessageKind.Success.toU8 = 4 ∧
    Keychain.get_initiation_message sha256 kc nanos =
      MessageKind.CommandOpen.toU8 ::
        (now nanos ++ buffer256 (kc.rsa.private_encrypt (sha256 (now nanos)))) ∧
    (now nanos).length = TIME_LENGTH ∧
    fromBeBytes (now nanos) = nanos % 2 ^ 64 ∧
    (buffer256 (kc.rsa.private_encrypt (sha256 (now nanos)))).length = 256 ∧
    (∀ r, Car.process sha256 car nanos message = some r →
      r = [MessageKind.Success.toU8]) := by
  refine ⟨rfl, rfl, get_initiation_message_eq sha256 kc nanos, now_length nanos,
    fromBeBytes_now nanos, buffer256_length _, ?_⟩
  intro r hr
  rcases car_process_none_or_success sha256 car nanos message with h | h
  · rw [h] at hr
    exact absurd hr (by simp)
  · rw [h] at hr
    exact (Option.some_inj.mp hr).symm

set_option maxRecDepth 1000000 in
/-- Witness for C8: the concrete layout at clock 0, and the concrete
`Success` answer of an accepted run. -/
theorem wire_format_witness :
    Keychain.get_initiation_message testSha testKeychain 0 =
      MessageKind.CommandOpen.toU8 ::
        (now 0 ++ buffer256 (testKeychain.rsa.private_encrypt (testSha (now 0)))) ∧
    ([4] : List Nat) = [MessageKind.Success.toU8] :=
  ⟨(wire_format testSha testCar testKeychain 0 []).2.2.1,
   (wire_format testSha testCar testKeychain 0
       (Keychain.get_initiation_message testSha testKeychain 0)).2.2.2.2.2.2
     [4] (by decide)⟩

/-- C9: the simulation drain loop terminates on every run.  Starting from
the queue holding the single initiation message, whatever the key material,
hash function and clock schedule, the queue is empty after at most two
iterations: the car answers at most one `Success`, and a `Success` elicits
nothing from either role. -/
theorem stepEther_cons (sha256 : List Nat → List Nat) (car : Car) (kc : Keychain)
    (nanos : Nat) (x : List Nat) (rest : List (List Nat)) :
    stepEther sha256 car kc nanos (x :: rest) =
      (match Keychain.process kc x with
        | some response =>
            (match Car.process sha256 car nanos x with
              | some r => rest ++ [r]
              | none => rest) ++ [response]
        | none =>
            match Car.process sha256 car nanos x with
            | some r => rest ++ [r]
            | none => rest) := rfl

theorem simulation_drains (sha256 : List Nat → List Nat) (car : Car)
    (kc : Keychain) (clock : Nat → Nat) (n0 : Nat) :
    runEther sha256 car kc clock 2 0
      [Keychain.get_initiation_message sha256 kc n0] = [] := by
  have h4 : Car.process sha256 car (clock 1) [MessageKind.Success.toU8] = none :=
    car_process_short _ _ _ _ (by decide)
  have hstep2 : stepEther sha256 car kc (clock 1) [[MessageKind.Success.toU8]] = [] := by
    rw [stepEther_cons, keychain_process_eq_none, h4]
  rcases car_process_none_or_success sha256 car (clock 0)
      (Keychain.get_initiation_message sha256 kc n0) with h | h
  · have hstep : stepEther sha256 car kc (clock 0)
        [Keychain.get_initiation_message sha256 kc n0] = [] := by
      rw [stepEther_cons, keychain_process_eq_none, h]
    simp only [runEther, hstep]
  · have hstep : stepEther sha256 car kc (clock 0)
        [Keychain.get_initiation_message sha256 kc n0] =
          [[MessageKind.Success.toU8]] := by
      rw [stepEther_cons, keychain_process_eq_none, h]
      rfl
    simp only [runEther, hstep, hstep2]

theorem mapM_get?_range (msg : List Nat) (h : TIME_LENGTH ≤ msg.length) :
    (List.range TIME_LENGTH).mapM (fun i => msg.get? i) = some (tokenBytes msg) := by
  have h8 : List.range TIME_LENGTH = [0, 1, 2, 3, 4, 5, 6, 7] := by decide
  have hT : TIME_LENGTH = 8 := rfl
  rw [hT] at h
  rw [tokenBytes, h8]
  simp only [List.mapM_cons, List.mapM_nil,
    get?_eq_some_getD msg 0 (by omega), get?_eq_some_getD msg 1 (by omega),
    get?_eq_some_getD msg 2 (by omega), get?_eq_some_getD msg 3 (by omega),
    get?_eq_some_getD msg 4 (by omega), get?_eq_some_getD msg 5 (by omega),
    get?_eq_some_getD msg 6 (by omega), get?_eq_some_getD msg 7 (by omega),
    Option.bind_some, Option.some_bind, List.map_cons, List.map_nil]
  rfl

theorem cmpLoopChecked_eq (digest : List Nat) (k : Nat) (buf : List Nat)
    (h : k + digest.length ≤ buf.length) :
    cmpLoopChecked digest k buf = some (cmpLoop digest k buf) := by
  induction digest generalizing k with
  | nil => rfl
  | cons v rest ih =>
    have hk : k < buf.length := by
      simp only [List.length_cons] at h
      omega
    rw [cmpLoopChecked, cmpLoop, get?_eq_some_getD buf k hk]
    dsimp only
    by_cases hbv : buf.getD k 0 = v
    · rw [if_neg (not_not_intro hbv), if_neg (not_not_intro hbv)]
      exact ih (k + 1) (by simp only [List.length_cons] at h; omega)
    · rw [if_pos hbv, if_pos hbv]

/-- C10: both `process` implementations are total over arbitrary input byte
vectors — the panic-checked variants, in which every index or slice access
is guarded, never reach an out-of-bounds access and agree with the direct
embedding.  (For the car this uses that every digest is 32 bytes: the
comparison loop touches only the first 32 bytes of the 256-byte buffer.) -/
theorem process_total (sha256 : List Nat → List Nat) (car : Car) (kc : Keychain)
    (nanos : Nat) (message : List Nat) (hsha : Sha256Shape sha256) :
    Car.processChecked sha256 car nanos message =
      some (Car.process sha256 car nanos message) ∧
    Keychain.processChecked kc message =
      some (Keychain.process kc message) := by
  constructor
  · by_cases hlen : message.length > TIME_LENGTH + 1
    · have h0 : message.get? 0 = some (message.getD 0 0) :=
        get?_eq_some_getD _ _ (by unfold TIME_LENGTH at hlen; omega)
      have h8 : TIME_LENGTH ≤ (message.drop 1).length := by
        simp only [List.length_drop]
        unfold TIME_LENGTH at hlen ⊢
        omega
      have hslice1 : checkedSlice message 1 = some (message.drop 1) := by
        unfold checkedSlice
        rw [if_pos (by unfold TIME_LENGTH at hlen; omega)]
      have hslice8 : checkedSlice (message.drop 1) TIME_LENGTH =
          some ((message.drop 1).drop TIME_LENGTH) := by
        unfold checkedSlice
        rw [if_pos h8]
      unfold Car.process Car.processChecked
      rw [if_pos hlen, if_pos hlen, h0, hslice1]
      dsimp only
      rw [mapM_get?_range _ h8, hslice8]
      dsimp only
      cases htf : MessageKind.tryFrom (message.getD 0 0) with
      | none => rfl
      | some k =>
        cases k with
        | Success => rfl
        | CommandOpen =>
          dsimp only
          cases hel : elapsed (tokenBytes (message.drop 1)) (now nanos) with
          | none => rfl
          | some d =>
            dsimp only
            by_cases hd : d / 1000000000 < 1
            · rw [if_pos hd, if_pos hd]
              cases hdec : car.rsa.public_decrypt ((message.drop 1).drop TIME_LENGTH) with
              | none => rfl
              | some recovered =>
                dsimp only
                rw [cmpLoopChecked_eq _ 0 _
                  (by rw [buffer256_length, hsha]; norm_num)]
                cases hcl : cmpLoop (sha256 (tokenBytes (message.drop 1))) 0
                    (buffer256 recovered) with
                | true => rfl
                | false => rfl
            · rw [if_neg hd, if_neg hd]
    · unfold Car.process Car.processChecked
      rw [if_neg hlen, if_neg hlen]
  · by_cases hlen : message.length < 1
    · unfold Keychain.process Keychain.processChecked
      rw [if_pos hlen, if_pos hlen]
    · have h0 : message.get? 0 = some (message.getD 0 0) :=
        get?_eq_some_getD _ _ (by omega)
      unfold Keychain.process Keychain.processChecked
      rw [if_neg hlen, if_neg hlen, h0]
      dsimp only
      cases htf : MessageKind.tryFrom (message.getD 0 0) with
      | none => rfl
      | some k => cases k <;> rfl

set_option maxRecDepth 1000000 in
/-- Witness for C10: the checked evaluation of a concrete accepted message
and of a concrete `Success` delivery. -/
theorem process_total_witness :
    Car.processChecked testSha testCar 0
        (Keychain.get_initiation_message testSha testKeychain 0) =
      some (Car.process testSha testCar 0
        (Keychain.get_initiation_message testSha testKeychain 0)) ∧
    Keychain.processChecked testKeychain [4] =
      some (Keychain.process testKeychain [4]) :=
  ⟨(process_total testSha testCar testKeychain 0
      (Keychain.get_initiation_message testSha testKeychain 0) testSha_shape).1,
   (process_total testSha testCar testKeychain 0 [4] testSha_shape).2⟩

end KeychainProto
